import Mathlib

/-!
Verification of the extractive summarization engine of
`src/summarizer.py` (`clean_text`, `summarize_text`).

The Python code is shallowly embedded: strings are Lean `String`s
(processed as `List Char`), Python floats are modelled as exact
rationals `ℚ` (at every concrete input evaluated in this file the
corresponding IEEE-double computation is exact, and the general
theorems proved below do not depend on rounding), Python `int()`
truncation is `pyInt`, Python's stable `sorted` is the stable
insertion sort `pySort`, and the one runtime failure mode of the code
(`math.log` at line 157 referencing the name `math`, which is never
imported by the module, hence `NameError`; and the `base_coverage[depth]`
dict lookup, hence `KeyError`) is modelled with `Except PyErr`.

The NLTK library is third-party code, not part of the repository; it is
modelled here for plain ASCII prose, as the spec describes it:
`sent_tokenize` splits after sentence-final `.`/`!`/`?` followed by
whitespace (this coincides with the module's own regex fallback
`re.split(r'(?<=[.!?])\s+', ...)`), `word_tokenize` separates maximal
alphanumeric runs and single punctuation characters, and
`stopwords.words('english')` is the standard NLTK English stopword
list.  Under this model the tokenizer never raises, so the fallback
branch at lines 100–103 of the source is unreachable and coincides
with the model.  Whitespace is modelled as the six ASCII whitespace
characters.
-/

set_option maxRecDepth 200000


/-- The six ASCII whitespace characters (model of Python `\s` / `str.strip`
for ASCII text). -/
def isSpaceC (c : Char) : Bool :=
  c == ' ' || c == '\t' || c == '\n' || c == '\x0d' || c == '\x0b' || c == '\x0c'

/-- ASCII alphanumeric (model of Python `str.isalnum` for ASCII text). -/
def isAlnumC (c : Char) : Bool :=
  (c ≥ 'a' && c ≤ 'z') || (c ≥ 'A' && c ≤ 'Z') || (c ≥ '0' && c ≤ '9')

/-- Match a literal list of characters at the head of `l`; return the rest. -/
def matchLit : List Char → List Char → Option (List Char)
  | [], l => some l
  | _ :: _, [] => none
  | p :: ps, c :: cs => if c = p then matchLit ps cs else none

/-- After a URL scheme, `\S+` must match: at least one non-space character,
then greedily all following non-space characters.  Returns the rest of the
input after the whole match. -/
def nonspaceTail : List Char → Option (List Char)
  | [] => none
  | c :: cs => if isSpaceC c then none else some (cs.dropWhile (fun d => !isSpaceC d))

/-- Try one alternative of the URL regex: literal scheme then `\S+`. -/
def tryScheme (pre : String) (l : List Char) : Option (List Char) :=
  match matchLit pre.data l with
  | some r => nonspaceTail r
  | none => none

/-- A match of `https?://\S+|www\.\S+` starting at the head of `l`
(line 51 of the source).  The regex engine tries `https://…`, then
backtracks the optional `s` to `http://…`, then the alternative
`www.…`; when a longer scheme literal matches but `\S+` fails, no
shorter alternative can match at the same position, so sequential
`orElse` is equivalent. -/
def matchURL (l : List Char) : Option (List Char) :=
  (tryScheme "https://" l).orElse fun _ =>
    (tryScheme "http://" l).orElse fun _ => tryScheme "www." l

/-- One pass of `re.sub(r'https?://\S+|www\.\S+', '', text)`: replace every
leftmost non-overlapping match by nothing.  Fuel-based structural recursion
(the fuel is always instantiated with the length of the list, which is an
upper bound on the number of steps). -/
def removeURLsF : ℕ → List Char → List Char
  | 0, l => l
  | _ + 1, [] => []
  | fuel + 1, c :: cs =>
    match matchURL (c :: cs) with
    | some rest => removeURLsF fuel rest
    | none => c :: removeURLsF fuel cs

def removeURLs (l : List Char) : List Char := removeURLsF l.length l

/-- Scan for the closing `>` of `<.*?>`: `.` does not match a newline, so the
match fails if a newline or the end of the input comes first.  Returns the
rest after the `>`. -/
def splitClose : List Char → Option (List Char)
  | [] => none
  | c :: cs => if c = '>' then some cs else if c = '\n' then none else splitClose cs

/-- One pass of `re.sub(r'<.*?>', '', text)` (line 54 of the source). -/
def removeTagsF : ℕ → List Char → List Char
  | 0, l => l
  | _ + 1, [] => []
  | fuel + 1, c :: cs =>
    if c = '<' then
      match splitClose cs with
      | some rest => removeTagsF fuel rest
      | none => c :: removeTagsF fuel cs
    else c :: removeTagsF fuel cs

def removeTags (l : List Char) : List Char := removeTagsF l.length l

/-- `re.sub(r'\s+', ' ', text)` (line 57 of the source): every maximal
whitespace run becomes a single space. -/
def collapseWS : List Char → List Char
  | [] => []
  | [c] => if isSpaceC c then [' '] else [c]
  | c1 :: c2 :: rest =>
    if isSpaceC c1 then
      if isSpaceC c2 then collapseWS (c2 :: rest)
      else ' ' :: collapseWS (c2 :: rest)
    else c1 :: collapseWS (c2 :: rest)

/-- Python `str.strip()` on a character list. -/
def pyStripL (l : List Char) : List Char :=
  ((l.dropWhile isSpaceC).reverse.dropWhile isSpaceC).reverse

/-- Python `str.strip()`. -/
def pyStrip (s : String) : String := ⟨pyStripL s.data⟩

/-- Python `text[:n]`. -/
def pyTake (s : String) (n : ℕ) : String := ⟨s.data.take n⟩

/-- `clean_text` (lines 40–62 of the source): remove URLs, remove HTML tags,
collapse whitespace runs to single spaces, strip. -/
def clean_text (text : String) : String :=
  ⟨pyStripL (collapseWS (removeTags (removeURLs text.data)))⟩

/-- Python `str.split()` with no argument: split on whitespace runs,
dropping empty pieces.  `cur` accumulates the current word reversed. -/
def pySplitAux (cur : List Char) : List Char → List (List Char)
  | [] => if cur.isEmpty then [] else [cur.reverse]
  | c :: cs =>
    if isSpaceC c then
      if cur.isEmpty then pySplitAux [] cs else cur.reverse :: pySplitAux [] cs
    else pySplitAux (c :: cur) cs

/-- Python `s.split()`. -/
def pySplit (s : String) : List String :=
  (pySplitAux [] s.data).map fun l => ⟨l⟩

/-- Python `sep.join(pieces)`. -/
def pyJoin (sep : String) : List String → String
  | [] => ""
  | [x] => x
  | x :: y :: xs => x ++ sep ++ pyJoin sep (y :: xs)

/-- Model of `nltk.sent_tokenize` for plain ASCII prose, identical to the
module's own fallback `re.split(r'(?<=[.!?])\s+', text)`: split at every
whitespace run preceded by `.`, `!` or `?`; the run itself is discarded.
`skipping` is true while consuming such a separator run; `cur` accumulates
the current piece reversed. -/
def isSentEnd (c : Char) : Bool := c == '.' || c == '!' || c == '?'

def headIsSpace : List Char → Bool
  | [] => false
  | c :: _ => isSpaceC c

def sentAux (skipping : Bool) (cur : List Char) : List Char → List (List Char)
  | [] => [cur.reverse]
  | c :: cs =>
    if skipping ∧ isSpaceC c then sentAux true cur cs
    else if isSentEnd c ∧ headIsSpace cs then (c :: cur).reverse :: sentAux true [] cs
    else sentAux false (c :: cur) cs

def sent_tokenize (s : String) : List String :=
  (sentAux false [] s.data).map fun l => ⟨l⟩

/-- Model of `nltk.word_tokenize` for plain ASCII prose: maximal
alphanumeric runs are tokens, and every other non-whitespace character is a
single-character token. -/
def wordTokAux (cur : List Char) : List Char → List (List Char)
  | [] => if cur.isEmpty then [] else [cur.reverse]
  | c :: cs =>
    if isAlnumC c then wordTokAux (c :: cur) cs
    else
      (if cur.isEmpty then [] else [cur.reverse]) ++
        (if isSpaceC c then wordTokAux [] cs else [c] :: wordTokAux [] cs)

def word_tokenize (s : String) : List String :=
  (wordTokAux [] s.data).map fun l => ⟨l⟩

/-- The NLTK English stopword list (`stopwords.words('english')`). -/
def stop_words : List String :=
  ["i", "me", "my", "myself", "we", "our", "ours", "ourselves", "you",
   "you\x27re", "you\x27ve", "you\x27ll", "you\x27d", "your", "yours",
   "yourself", "yourselves", "he", "him", "his", "himself", "she",
   "she\x27s", "her", "hers", "herself", "it", "it\x27s", "its", "itself",
   "they", "them", "their", "theirs", "themselves", "what", "which", "who",
   "whom", "this", "that", "that\x27ll", "these", "those", "am", "is",
   "are", "was", "were", "be", "been", "being", "have", "has", "had",
   "having", "do", "does", "did", "doing", "a", "an", "the", "and", "but",
   "if", "or", "because", "as", "until", "while", "of", "at", "by", "for",
   "with", "about", "against", "between", "into", "through", "during",
   "before", "after", "above", "below", "to", "from", "up", "down", "in",
   "out", "on", "off", "over", "under", "again", "further", "then", "once",
   "here", "there", "when", "where", "why", "how", "all", "any", "both",
   "each", "few", "more", "most", "other", "some", "such", "no", "nor",
   "not", "only", "own", "same", "so", "than", "too", "very", "s", "t",
   "can", "will", "just", "don", "don\x27t", "should", "should\x27ve",
   "now", "d", "ll", "m", "o", "re", "ve", "y", "ain", "aren",
   "aren\x27t", "couldn", "couldn\x27t", "didn", "didn\x27t", "doesn",
   "doesn\x27t", "hadn", "hadn\x27t", "hasn", "hasn\x27t", "haven",
   "haven\x27t", "isn", "isn\x27t", "ma", "mightn", "mightn\x27t",
   "mustn", "mustn\x27t", "needn", "needn\x27t", "shan", "shan\x27t",
   "shouldn", "shouldn\x27t", "wasn", "wasn\x27t", "weren", "weren\x27t",
   "won", "won\x27t", "wouldn", "wouldn\x27t"]

/-- Python `str.lower()` (`String.toLower` is not used because its
byte-position recursion does not reduce in the kernel; this is the same
function on the character list). -/
def pyToLower (s : String) : String := ⟨s.data.map Char.toLower⟩

/-- Python `word.isalnum()` on a token: nonempty and all alphanumeric. -/
def pyIsalnum (w : String) : Bool := !w.data.isEmpty && w.data.all isAlnumC

/-- The comprehension
`[word.lower() for word in word_tokenize(x) if word.lower() not in stop_words and word.isalnum()]`
used at lines 113–114, 122–123 and 133–134 of the source. -/
def significant (s : String) : List String :=
  ((word_tokenize s).filter
    (fun w => !stop_words.contains (pyToLower w) && pyIsalnum w)).map pyToLower

/-- Exact rational arithmetic for the embedded Python floats: a fraction
with a positive denominator, not necessarily reduced (no gcd
normalization, so every operation is plain integer arithmetic and
evaluates inside the kernel).  At every concrete input evaluated in this
file the IEEE-double computation of the source is exact, and the general
theorems below do not depend on rounding, so exact rationals model the
source's float arithmetic faithfully; `PyRat.val` interprets a value in
`ℚ`. -/
structure PyRat where
  num : ℤ
  den : ℕ
  den_pos : 0 < den

instance (n : ℕ) : OfNat PyRat n := ⟨⟨n, 1, Nat.one_pos⟩⟩

instance : NatCast PyRat := ⟨fun n => ⟨n, 1, Nat.one_pos⟩⟩

instance : IntCast PyRat := ⟨fun n => ⟨n, 1, Nat.one_pos⟩⟩

instance : Add PyRat :=
  ⟨fun a b => ⟨a.num * b.den + b.num * a.den, a.den * b.den, Nat.mul_pos a.den_pos b.den_pos⟩⟩

instance : Mul PyRat :=
  ⟨fun a b => ⟨a.num * b.num, a.den * b.den, Nat.mul_pos a.den_pos b.den_pos⟩⟩

instance : Neg PyRat := ⟨fun a => ⟨-a.num, a.den, a.den_pos⟩⟩

instance : Sub PyRat := ⟨fun a b => a + -b⟩

/-- Reciprocal.  Division by zero never occurs on the embedded code paths
(every divisor is a positive count or a positive constant); zero maps to
the junk value zero. -/
def PyRat.inv (a : PyRat) : PyRat :=
  if h : 0 < a.num then ⟨a.den, a.num.toNat, by omega⟩
  else if h2 : a.num < 0 then ⟨-(a.den : ℤ), (-a.num).toNat, by omega⟩
  else 0

instance : Div PyRat := ⟨fun a b => a * b.inv⟩

instance : LE PyRat := ⟨fun a b => a.num * (b.den : ℤ) ≤ b.num * (a.den : ℤ)⟩

instance : LT PyRat := ⟨fun a b => a.num * (b.den : ℤ) < b.num * (a.den : ℤ)⟩

instance (a b : PyRat) : Decidable (a ≤ b) :=
  inferInstanceAs (Decidable (a.num * (b.den : ℤ) ≤ b.num * (a.den : ℤ)))

instance (a b : PyRat) : Decidable (a < b) :=
  inferInstanceAs (Decidable (a.num * (b.den : ℤ) < b.num * (a.den : ℤ)))

/-- Python `min(a, b)` (returns the first argument on ties). -/
instance : Min PyRat := ⟨fun a b => if a ≤ b then a else b⟩

/-- Python `max(a, b)` (returns the first argument on ties). -/
instance : Max PyRat := ⟨fun a b => if b ≤ a then a else b⟩

instance : DecidableEq PyRat := fun a b =>
  decidable_of_iff (a.num = b.num ∧ a.den = b.den) (by
    constructor
    · intro h
      obtain ⟨h1, h2⟩ := h
      cases a
      cases b
      dsimp only at h1 h2
      subst h1
      subst h2
      rfl
    · intro h
      rw [h]
      exact ⟨rfl, rfl⟩)

/-- The value of a `PyRat` as a mathematical rational. -/
def PyRat.val (a : PyRat) : ℚ := (a.num : ℚ) / (a.den : ℚ)

/-- Python `int()` truncation toward zero (`Int.tdiv` truncates the exact
quotient toward zero, as CPython's `int(float)` does). -/
def pyInt (q : PyRat) : ℤ := q.num.tdiv (q.den : ℤ)

/-- Stable insertion used by `pySort`: `x` is placed after every element `y`
already in the list with `le y x` (so elements comparing equal keep their
original relative order, as Python's stable `sorted`/`list.sort` do). -/
def pyInsert (le : α → α → Bool) (x : α) : List α → List α
  | [] => [x]
  | y :: ys => if le y x then y :: pyInsert le x ys else x :: y :: ys

/-- Model of Python's stable `sorted(l)` with respect to the total preorder
`le` (`le y x` = "y may stay before x"). -/
def pySort (le : α → α → Bool) (l : List α) : List α :=
  l.foldl (fun acc x => pyInsert le x acc) []

/-- `sorted(…, key=lambda x: x[1], reverse=True)` on score pairs. -/
def pairScoreGe (y x : ℕ × PyRat) : Bool := decide (x.2 ≤ y.2)

/-- `sorted(…, key=lambda x: x[0])` on score pairs. -/
def pairIdxLe (y x : ℕ × PyRat) : Bool := decide (y.1 ≤ x.1)

/-- `list.sort()` on plain indices. -/
def natLe (y x : ℕ) : Bool := decide (y ≤ x)

/-- Python tuple order on `(bool, int)` keys. -/
def lexBoolNat (y x : Bool × ℕ) : Bool :=
  (!y.1 && x.1) || (y.1 == x.1 && decide (y.2 ≤ x.2))

/-- Python tuple order on `(bool, rational)` keys. -/
def lexBoolRat (y x : Bool × PyRat) : Bool :=
  (!y.1 && x.1) || (y.1 == x.1 && decide (y.2 ≤ x.2))

/-- `dict.get(k, default)` on the sentence-score association list. -/
def dictGet (d : List (ℕ × PyRat)) (k : ℕ) (default : PyRat) : PyRat :=
  match d.find? (fun p => p.1 == k) with
  | some p => p.2
  | none => default

/-- The internal failures of `summarize_text` reachable in this model. -/
inductive PyErr where
  /-- Line 157 evaluates `math.log(...)`, but the module never imports
  `math`, so the name lookup raises `NameError`. -/
  | nameErrorMath : PyErr
  /-- `base_coverage[depth]` with `depth` outside `{1,…,5}`. -/
  | keyError : PyErr
deriving DecidableEq

/-- Word-frequency table `FreqDist(words)` (a missing key counts 0). -/
def freqDist (ws : List String) : String → ℕ := fun w => ws.count w

/-- The score of sentence `i` (lines 121–138 of the source): sum of
document frequencies of the sentence's significant terms, scaled by the
position weight (1.0 for the first three sentences, 0.5 after), plus 2 per
sentence term occurrence that also appears in the title's significant
terms when a title is given (Python `if title:` is true iff the title is
nonempty). -/
def sentence_score (freq : String → ℕ) (title : String) (i : ℕ) (sentence : String) : PyRat :=
  let words_in_sentence := significant sentence
  let position_score : PyRat := if i < 3 then 1 else 1 / 2
  let score := (words_in_sentence.map fun w => ((freq w : ℕ) : PyRat)).sum * position_score
  if title = "" then score
  else
    let title_words := significant title
    let title_match := (words_in_sentence.filter fun w => title_words.contains w).length
    score + (title_match : PyRat) * 2

/-- `sentence_scores` as an association list in sentence order (Python
dicts iterate in insertion order). -/
def sentence_scores (sentences : List String) (freq : String → ℕ) (title : String) :
    List (ℕ × PyRat) :=
  sentences.enum.map fun p => (p.1, sentence_score freq title p.1 p.2)

/-- `base_coverage` dict (lines 142–148). -/
def base_coverage : ℕ → Option PyRat
  | 1 => some (1 / 10)
  | 2 => some (1 / 5)
  | 3 => some (3 / 10)
  | 4 => some (9 / 20)
  | 5 => some (3 / 5)
  | _ => none

/-- Lines 150–167 of the source: the depth-scaled target sentence count.
Line 157 (`depth_multiplier *= 1 + math.log(text_length / 20, 10) * 0.2`,
guarded by `text_length > 20`) raises `NameError` because `math` is never
imported; this is the `.error .nameErrorMath` branch. -/
def computeNumSentences (text_length depth : ℕ) : Except PyErr ℤ :=
  match base_coverage depth with
  | none => .error .keyError
  | some cov =>
    let base_count : ℤ := max 2 (pyInt ((text_length : PyRat) * cov))
    let length_factor : PyRat := min 1 ((text_length : PyRat) / 20)
    let depth_multiplier : PyRat := 1 + ((depth : PyRat) - 3) * (1 / 2) * length_factor
    if 20 < text_length then .error .nameErrorMath
    else
      let depth_adjusted_max : ℤ :=
        max 2 (min (pyInt ((base_count : PyRat) * depth_multiplier)) (text_length : ℤ))
      if depth = 1 then .ok (min depth_adjusted_max 3)
      else if depth = 5 ∧ 15 < text_length then
        .ok (min ((text_length : ℤ) - 2) (pyInt ((depth_adjusted_max : PyRat) * (6 / 5))))
      else .ok depth_adjusted_max

/-- Lines 169–172: top `num` sentences by score (stable descending sort),
re-sorted into original position order. -/
def top_sentences (scores : List (ℕ × PyRat)) (num : ℕ) : List (ℕ × PyRat) :=
  pySort pairIdxLe ((pySort pairScoreGe scores).take num)

/-- `[aeiouy]` for the syllable proxy. -/
def isVowelY (c : Char) : Bool :=
  c == 'a' || c == 'e' || c == 'i' || c == 'o' || c == 'u' || c == 'y'

/-- `len(re.findall(r'[aeiouy]+', word))`: number of maximal vowel runs.
`prevVowel` records whether the previous character was a vowel. -/
def vowelRuns (prevVowel : Bool) : List Char → ℕ
  | [] => 0
  | c :: cs =>
    if isVowelY c then (if prevVowel then 0 else 1) + vowelRuns true cs
    else vowelRuns false cs

/-- The auxiliary complexity score of one sentence for `complexity == 5`
(lines 218–236 of the source).  `vocab_frequency` is `FreqDist(words)`
over the document's significant words (line 216; the loop variable
`words` at line 219 shadows it only after that point). -/
def complexity_score (vocab_frequency : String → ℕ) (sentence : String) : PyRat :=
  let words := word_tokenize sentence
  let words_filtered :=
    (words.filter fun w => !stop_words.contains (pyToLower w)).map pyToLower
  let avg_word_length : PyRat :=
    (words_filtered.map fun w => ((w.length : ℕ) : PyRat)).sum /
      ((max 1 words_filtered.length : ℕ) : PyRat)
  let syllable_count : PyRat :=
    (words_filtered.map fun w => ((vowelRuns false w.data : ℕ) : PyRat)).sum
  let avg_syllables : PyRat := syllable_count / ((max 1 words_filtered.length : ℕ) : PyRat)
  let unusual_words : PyRat := (((words_filtered.filter fun w => 7 < w.length).length : ℕ) : PyRat)
  let rare_words : PyRat :=
    (((words_filtered.filter fun w => vocab_frequency (pyToLower w) ≤ 2).length : ℕ) : PyRat)
  ((words.length : ℕ) : PyRat) * (1 / 5) + avg_word_length * (3 / 10) +
    avg_syllables * (1 / 5) + unusual_words * 2 + rare_words * (5 / 2)

/-- The indices whose sentences the complexity branches assemble, in
emission order (lines 177–245 of the source); the final `else` branch is
taken for `complexity == 5` and for any value outside `{1,…,4}`, mirroring
the `if/elif/else` chain. -/
def selected_indices (sentences : List String) (scores : List (ℕ × PyRat))
    (words : List String) (num complexity : ℕ) : List ℕ :=
  if complexity = 1 then
    let sentence_weights := sentences.enum.map fun p => (p.1, p.2, (pySplit p.2).length)
    let simple_sentences := pySort
      (fun y x => lexBoolNat (decide (15 < y.2.2), y.2.2) (decide (15 < x.2.2), x.2.2))
      sentence_weights
    pySort natLe ((simple_sentences.take (max 2 num)).map fun t => t.1)
  else if complexity = 2 then
    let sentence_weights := sentences.enum.map fun p => (p.1, p.2, (pySplit p.2).length)
    let simple_sentences := pySort
      (fun y x => lexBoolRat (decide (25 < y.2.2), -(dictGet scores y.1 0))
                             (decide (25 < x.2.2), -(dictGet scores x.1 0)))
      sentence_weights
    pySort natLe ((simple_sentences.take num).map fun t => t.1)
  else if complexity = 3 then
    (top_sentences scores num).map Prod.fst
  else if complexity = 4 then
    let additional_sentences := num / 2
    let key := fun (x : ℕ × PyRat) =>
      x.2 * (1 + (1 / 5) * min 1 ((((pySplit (sentences.getD x.1 "")).length : ℕ) : PyRat) / 30))
    let complex_sentences := pySort pairIdxLe
      ((pySort (fun y x => decide (key x ≤ key y)) scores).take (num + additional_sentences))
    complex_sentences.map Prod.fst
  else
    let additional_sentences := num
    let vocab_frequency := freqDist words
    let combined_scores := (List.range sentences.length).map fun i =>
      (i, dictGet scores i 0 * (3 / 5) +
            complexity_score vocab_frequency (sentences.getD i "") * (2 / 5))
    let complex_sentences := pySort pairIdxLe
      ((pySort pairScoreGe combined_scores).take (num + additional_sentences))
    complex_sentences.map Prod.fst

/-- Lines 248–253: the indices appended by the minimum-length backfill,
ranks `[num, num+additional)` of the stable descending score order,
re-sorted ascending among themselves. -/
def backfill_pairs (scores : List (ℕ × PyRat)) (num additional : ℕ) : List (ℕ × PyRat) :=
  pySort pairIdxLe (((pySort pairScoreGe scores).drop num).take additional)

/-- The body of the `try:` block, lines 89–255 of the source
(`min_sentences` is its default 2; `max_sentences` is never used by the
function).  The `nltk.download` calls at lines 80–85 perform I/O only and
do not affect the returned value.  Returns `.error` where the Python code
raises. -/
def summarize_body (text title : String) (depth complexity : ℕ) : Except PyErr String :=
  let cleaned_text := clean_text text
  if (pySplit cleaned_text).length < 50 then .ok (pyTake cleaned_text 500 ++ "...")
  else
    let sentences := sent_tokenize cleaned_text
    if sentences.length ≤ 2 then .ok (pyJoin " " sentences)
    else
      let words := significant cleaned_text
      let freq := freqDist words
      let scores := sentence_scores sentences freq title
      match computeNumSentences sentences.length depth with
      | .error e => .error e
      | .ok num =>
        let num_sentences := num.toNat
        let sel := selected_indices sentences scores words num_sentences complexity
        let summary := pyJoin " " (sel.map fun i => sentences.getD i "")
        if (pySplit summary).length < 30 ∧ num_sentences < sentences.length then
          let additional := min (sentences.length - num_sentences) 2
          .ok (summary ++ String.join
            ((backfill_pairs scores num_sentences additional).map
              fun p => " " ++ sentences.getD p.1 ""))
        else .ok summary

/-- `summarize_text` (lines 64–260 of the source): the empty/whitespace
sentinel check sits before the `try:`; every exception raised inside the
body is caught at lines 257–260 and converted to the truncation fallback
`text[:500] + "..." if len(text) > 500 else text`. -/
def summarize_text (text title : String) (depth complexity : ℕ) : String :=
  if text = "" ∨ pyStrip text = "" then "No content to summarize."
  else
    match summarize_body text title depth complexity with
    | .ok s => s
    | .error _ => if 500 < text.length then pyTake text 500 ++ "..." else text

/-- The emission-ordered index sequence of the assembled summary, with the
backfill indices appended (companion to `summarize_body`, related to it by
`summary_is_assembled_selection` below). -/
def selection_with_backfill (sentences : List String) (scores : List (ℕ × PyRat))
    (words : List String) (num complexity : ℕ) : List ℕ :=
  let sel := selected_indices sentences scores words num complexity
  let summary := pyJoin " " (sel.map fun i => sentences.getD i "")
  if (pySplit summary).length < 30 ∧ num < sentences.length then
    sel ++ (backfill_pairs scores num (min (sentences.length - num) 2)).map Prod.fst
  else sel

/-! ### Concrete input documents used to evaluate the theorems below -/

/-- 21 identical three-word sentences: more than 20 sentences and at least
50 words, so scoring is reached and line 157 raises `NameError`. -/
def doc21 : String := pyJoin " " (List.replicate 21 "aa bb cc.")

/-- One long sentence of 17 tokens built from a seven-word vocabulary. -/
def long7 : String := "bb bb cc cc dd dd ee ee ff ff gg gg hh hh bb cc dd."

/-- Exactly 20 sentences, 70 words: eighteen two-word sentences and two
17-word sentences whose scores rank third and fourth. -/
def doc7sents : List String :=
  ["aa aa.", "aa aa.", "zz qq."] ++ List.replicate 15 "aa aa." ++ [long7, long7]

def doc7 : String := pyJoin " " doc7sents

/-- Ten sentences, 61 words: the three top-scoring sentences are the last
three, and the backfill then appends sentences 0 and 1 after them. -/
def doc3sents : List String :=
  ["cc cc cc cc.", "ee ff gg hh ii jj.", "kk lk mm nn oo pp.",
   "qq rr ss tt uu vv.", "ww xx yy zz ba ca.", "da ea fa ga ha ia.",
   "ja ka la pa na oa.", "dd dd dd dd dd dd dd.", "dd dd dd dd dd dd dd.",
   "dd dd dd dd dd dd dd."]

def doc3 : String := pyJoin " " doc3sents

def doc3words : List String := significant (clean_text doc3)

def doc3scores : List (ℕ × PyRat) := sentence_scores doc3sents (freqDist doc3words) ""

/-- Seven eight-word sentences of 56 distinct five-letter words: at depth 1
the target count is 2, but complexity 5 doubles the pool to 4 sentences. -/
def doc4sents : List String :=
  ["babab cacac dadad fafaf gagag hahah jajaj kakak.",
   "lalal mamam nanan papap qaqaq rarar sasas tatat.",
   "vavav wawaw xaxax zazaz bebeb cecec deded fefef.",
   "gegeg hehe2 jejej kekek lelel memem nenen pepep.",
   "qeqeq rerer seses tetet vevev wewew xexex zezez.",
   "bobob cococ dodod fofof gogog hohoh jojoj kokok.",
   "lolol momom nonon popop qoqoq rorot sosos totot."]

def doc4 : String := pyJoin " " doc4sents

def doc4words : List String := significant (clean_text doc4)

def doc4scores : List (ℕ × PyRat) := sentence_scores doc4sents (freqDist doc4words) ""

/-- A frequency table for the title-boost evaluation: the four content
words score 3 each. -/
def freq9 : String → ℕ :=
  fun w => if w = "xx" ∨ w = "yy" ∨ w = "aa" ∨ w = "bb" then 3 else 0

/-- A frequency table under which the title-boosted sentence of the C9
counterexample has frequency-sum 10, so across position classes
0.5 · 10 + 4 < 1.0 · 10. -/
def freq9b : String → ℕ :=
  fun w => if w = "xx" ∨ w = "yy" ∨ w = "aa" ∨ w = "bb" then 5 else 0

/-- The score pairs of the two title-boost witness sentences: sentence 0
("xx yy.", boosted) and sentence 1 ("aa bb.", unboosted), both in the
first position class. -/
def scores9 : List (ℕ × PyRat) :=
  [(0, sentence_score freq9 "xx yy" 0 "xx yy."),
   (1, sentence_score freq9 "xx yy" 1 "aa bb.")]

/-! ### The rational interpretation of `PyRat` -/

theorem PyRat.den_cast_pos (a : PyRat) : (0 : ℚ) < (a.den : ℚ) := by
  exact_mod_cast a.den_pos

theorem PyRat.le_iff (a b : PyRat) : a ≤ b ↔ a.val ≤ b.val := by
  show a.num * (b.den : ℤ) ≤ b.num * (a.den : ℤ) ↔ _
  rw [PyRat.val, PyRat.val, div_le_div_iff₀ a.den_cast_pos b.den_cast_pos]
  exact_mod_cast Iff.rfl

theorem PyRat.lt_iff (a b : PyRat) : a < b ↔ a.val < b.val := by
  show a.num * (b.den : ℤ) < b.num * (a.den : ℤ) ↔ _
  rw [PyRat.val, PyRat.val, div_lt_div_iff₀ a.den_cast_pos b.den_cast_pos]
  exact_mod_cast Iff.rfl

theorem PyRat.val_add (a b : PyRat) : (a + b).val = a.val + b.val := by
  show ((a.num * b.den + b.num * a.den : ℤ) : ℚ) / ((a.den * b.den : ℕ) : ℚ) = _
  rw [PyRat.val, PyRat.val]
  have ha := a.den_cast_pos.ne'
  have hb := b.den_cast_pos.ne'
  field_simp
  try push_cast
  try ring

theorem PyRat.val_mul (a b : PyRat) : (a * b).val = a.val * b.val := by
  show ((a.num * b.num : ℤ) : ℚ) / ((a.den * b.den : ℕ) : ℚ) = _
  rw [PyRat.val, PyRat.val]
  have ha := a.den_cast_pos.ne'
  have hb := b.den_cast_pos.ne'
  field_simp
  try push_cast
  try ring

theorem PyRat.val_natCast (n : ℕ) : ((n : PyRat)).val = (n : ℚ) := by
  show ((n : ℤ) : ℚ) / ((1 : ℕ) : ℚ) = _
  simp

theorem PyRat.val_ofNat (n : ℕ) : (OfNat.ofNat n : PyRat).val = (n : ℚ) := by
  show ((n : ℤ) : ℚ) / ((1 : ℕ) : ℚ) = _
  simp

/-! ### The stable sort `pySort` -/

theorem pyInsert_mem (le : α → α → Bool) (x b : α) (l : List α) :
    b ∈ pyInsert le x l ↔ b = x ∨ b ∈ l := by
  induction l with
  | nil => simp [pyInsert]
  | cons y ys ih =>
    simp only [pyInsert]
    split
    · simp only [List.mem_cons, ih]
      tauto
    · simp only [List.mem_cons]

theorem pyInsert_length (le : α → α → Bool) (x : α) (l : List α) :
    (pyInsert le x l).length = l.length + 1 := by
  induction l with
  | nil => rfl
  | cons y ys ih =>
    simp only [pyInsert]
    split
    all_goals simp [ih]

theorem pySort_length (le : α → α → Bool) (l : List α) :
    (pySort le l).length = l.length := by
  suffices h : ∀ acc : List α,
      (l.foldl (fun acc x => pyInsert le x acc) acc).length = acc.length + l.length by
    simpa using h []
  induction l with
  | nil => simp
  | cons x xs ih =>
    intro acc
    simp only [List.foldl_cons, ih, pyInsert_length, List.length_cons]
    omega

theorem pyInsert_pairwise {le : α → α → Bool}
    (htot : ∀ a b, le a b = true ∨ le b a = true)
    (htrans : ∀ a b c, le a b = true → le b c = true → le a c = true)
    (x : α) {l : List α} (h : l.Pairwise fun a b => le a b = true) :
    (pyInsert le x l).Pairwise fun a b => le a b = true := by
  induction l with
  | nil => simp [pyInsert]
  | cons y ys ih =>
    rw [List.pairwise_cons] at h
    obtain ⟨hy, hys⟩ := h
    simp only [pyInsert]
    split
    case isTrue hle =>
      rw [List.pairwise_cons]
      refine ⟨?_, ih hys⟩
      intro b hb
      rcases (pyInsert_mem le x b ys).mp hb with rfl | hbys
      · exact hle
      · exact hy b hbys
    case isFalse hle =>
      rw [List.pairwise_cons]
      have hxy : le x y = true := (htot x y).resolve_right hle
      refine ⟨?_, List.pairwise_cons.mpr ⟨hy, hys⟩⟩
      intro b hb
      rcases List.mem_cons.mp hb with rfl | hbys
      · exact hxy
      · exact htrans x y b hxy (hy b hbys)

theorem pySort_pairwise {le : α → α → Bool}
    (htot : ∀ a b, le a b = true ∨ le b a = true)
    (htrans : ∀ a b c, le a b = true → le b c = true → le a c = true)
    (l : List α) : (pySort le l).Pairwise fun a b => le a b = true := by
  suffices h : ∀ acc : List α, (acc.Pairwise fun a b => le a b = true) →
      ((l.foldl (fun acc x => pyInsert le x acc) acc).Pairwise fun a b => le a b = true) by
    exact h [] (by simp)
  induction l with
  | nil => intro acc hacc; simpa using hacc
  | cons x xs ih =>
    intro acc hacc
    exact ih _ (pyInsert_pairwise htot htrans x hacc)

theorem pySort_natLe_sorted (l : List ℕ) : List.Sorted (· ≤ ·) (pySort natLe l) := by
  have h := @pySort_pairwise ℕ natLe
    (fun a b => by
      rcases Nat.le_total a b with h | h
      · exact Or.inl (decide_eq_true h)
      · exact Or.inr (decide_eq_true h))
    (fun a b c h1 h2 => by
      simp only [natLe, decide_eq_true_eq] at h1 h2 ⊢
      omega) l
  exact h.imp fun hab => by simpa [natLe] using hab

theorem pairScoreGe_total (a b : ℕ × PyRat) :
    pairScoreGe a b = true ∨ pairScoreGe b a = true := by
  unfold pairScoreGe
  rcases le_total (PyRat.val b.2) (PyRat.val a.2) with h | h
  · exact Or.inl (decide_eq_true ((PyRat.le_iff _ _).mpr h))
  · exact Or.inr (decide_eq_true ((PyRat.le_iff _ _).mpr h))

theorem pairScoreGe_trans (a b c : ℕ × PyRat) (h1 : pairScoreGe a b = true)
    (h2 : pairScoreGe b c = true) : pairScoreGe a c = true := by
  unfold pairScoreGe at h1 h2 ⊢
  rw [decide_eq_true_eq, PyRat.le_iff] at h1 h2 ⊢
  exact le_trans h2 h1

theorem pySort_mem (le : α → α → Bool) (a : α) (l : List α) :
    a ∈ pySort le l ↔ a ∈ l := by
  suffices h : ∀ acc : List α,
      a ∈ l.foldl (fun acc x => pyInsert le x acc) acc ↔ a ∈ acc ∨ a ∈ l by
    simpa [pySort] using h []
  induction l with
  | nil => intro acc; simp
  | cons x xs ih =>
    intro acc
    rw [List.foldl_cons, ih (pyInsert le x acc), pyInsert_mem]
    simp only [List.mem_cons]
    tauto

/-- The selection at a fixed target count prefers strictly higher scores:
whenever a lower-scoring pair is among the top `num`, every
strictly-higher-scoring pair of the score list is too (the descending
sort places it earlier, so it cannot fall outside the taken prefix). -/
theorem top_sentences_preferred (scores : List (ℕ × PyRat)) (num : ℕ)
    (a b : ℕ × PyRat) (ha : a ∈ scores) (hb : b ∈ top_sentences scores num)
    (hlt : b.2 < a.2) : a ∈ top_sentences scores num := by
  unfold top_sentences at hb ⊢
  rw [pySort_mem] at hb ⊢
  by_contra hna
  have haS : a ∈ pySort pairScoreGe scores := (pySort_mem _ _ _).mpr ha
  have hpw := pySort_pairwise pairScoreGe_total pairScoreGe_trans scores
  rw [← List.take_append_drop num (pySort pairScoreGe scores),
    List.pairwise_append] at hpw
  obtain ⟨-, -, hcross⟩ := hpw
  have hadrop : a ∈ (pySort pairScoreGe scores).drop num := by
    rw [← List.take_append_drop num (pySort pairScoreGe scores)] at haS
    rcases List.mem_append.mp haS with hmem | hmem
    · exact absurd hmem hna
    · exact hmem
  have hle := hcross b hb a hadrop
  unfold pairScoreGe at hle
  rw [decide_eq_true_eq, PyRat.le_iff] at hle
  rw [PyRat.lt_iff] at hlt
  linarith

theorem pySort_pairIdxLe_sorted (l : List (ℕ × PyRat)) :
    List.Sorted (· ≤ ·) ((pySort pairIdxLe l).map Prod.fst) := by
  have h := @pySort_pairwise (ℕ × PyRat) pairIdxLe
    (fun a b => by
      rcases Nat.le_total a.1 b.1 with h | h
      · exact Or.inl (decide_eq_true h)
      · exact Or.inr (decide_eq_true h))
    (fun a b c h1 h2 => by
      simp only [pairIdxLe, decide_eq_true_eq] at h1 h2 ⊢
      omega) l
  have h2 : (pySort pairIdxLe l).Pairwise fun a b => a.1 ≤ b.1 :=
    h.imp fun hab => by simpa [pairIdxLe] using hab
  exact List.pairwise_map.mpr h2

/-! ### Whitespace-only inputs -/

theorem pyStripL_nil_all {l : List Char} (h : pyStripL l = []) :
    ∀ c ∈ l, isSpaceC c = true := by
  unfold pyStripL at h
  rw [List.reverse_eq_nil_iff] at h
  have h2 := List.dropWhile_eq_nil_iff.mp h
  intro c hc
  by_cases hw : isSpaceC c = true
  · exact hw
  · exfalso
    have hsplit := @List.takeWhile_append_dropWhile _ isSpaceC l
    rcases List.mem_append.mp (by rw [hsplit]; exact hc) with hmem | hmem
    · exact hw (List.mem_takeWhile_imp hmem)
    · exact hw (h2 c (List.mem_reverse.mpr hmem))

theorem matchLit_head_ws {p : Char} {ps : List Char} {c : Char} {cs : List Char}
    (hw : isSpaceC c = true) (hp : isSpaceC p = false) :
    matchLit (p :: ps) (c :: cs) = none := by
  unfold matchLit
  rw [if_neg]
  intro h
  subst h
  rw [hw] at hp
  cases hp

theorem matchURL_ws {c : Char} {cs : List Char} (hw : isSpaceC c = true) :
    matchURL (c :: cs) = none := by
  have hh : isSpaceC 'h' = false := rfl
  have hw2 : isSpaceC 'w' = false := rfl
  unfold matchURL tryScheme
  rw [show ("https://").data = 'h' :: ("ttps://").data from rfl,
      show ("http://").data = 'h' :: ("ttp://").data from rfl,
      show ("www.").data = 'w' :: ("ww.").data from rfl,
      matchLit_head_ws hw hh, matchLit_head_ws hw hh, matchLit_head_ws hw hw2]
  rfl

theorem removeURLsF_ws (fuel : ℕ) {l : List Char} (h : ∀ c ∈ l, isSpaceC c = true) :
    removeURLsF fuel l = l := by
  induction fuel generalizing l with
  | zero => rfl
  | succ fuel ih =>
    cases l with
    | nil => rfl
    | cons c cs =>
      simp only [removeURLsF, matchURL_ws (h c (List.mem_cons_self c cs)),
        ih fun d hd => h d (List.mem_cons_of_mem c hd)]

theorem removeTagsF_ws (fuel : ℕ) {l : List Char} (h : ∀ c ∈ l, isSpaceC c = true) :
    removeTagsF fuel l = l := by
  induction fuel generalizing l with
  | zero => rfl
  | succ fuel ih =>
    cases l with
    | nil => rfl
    | cons c cs =>
      have hc : ¬ c = '<' := by
        intro hc
        have := h c (List.mem_cons_self c cs)
        rw [hc] at this
        cases this
      simp only [removeTagsF, if_neg hc,
        ih fun d hd => h d (List.mem_cons_of_mem c hd)]

theorem collapseWS_ws {l : List Char} (hne : l ≠ []) (h : ∀ c ∈ l, isSpaceC c = true) :
    collapseWS l = [' '] := by
  induction l with
  | nil => exact absurd rfl hne
  | cons c cs ih =>
    cases cs with
    | nil => simp [collapseWS, h c (List.mem_cons_self c [])]
    | cons c2 rest =>
      have hc := h c (List.mem_cons_self c (c2 :: rest))
      have hc2 := h c2 (List.mem_cons_of_mem c (List.mem_cons_self c2 rest))
      simp only [collapseWS, hc, hc2, if_true]
      exact ih (by simp) fun d hd => h d (List.mem_cons_of_mem c hd)

theorem clean_text_of_strip_nil {t : String} (h : pyStrip t = "") : clean_text t = "" := by
  have hdata : pyStripL t.data = [] := congrArg String.data h
  have hws := pyStripL_nil_all hdata
  unfold clean_text removeURLs removeTags
  rw [removeURLsF_ws _ hws, removeTagsF_ws _ hws]
  cases hn : t.data with
  | nil => rfl
  | cons c cs =>
    rw [collapseWS_ws (by simp) (by rw [← hn]; exact hws)]
    rfl

/-- For an empty or whitespace-only input, the cleaned text has no words;
hence any input whose cleaned text has words passes the sentinel check. -/
theorem strip_ne_of_words {t : String} (h : 1 ≤ (pySplit (clean_text t)).length) :
    ¬ (t = "" ∨ pyStrip t = "") := by
  rintro (rfl | hstrip)
  · simp [pySplit, pySplitAux, clean_text, removeURLs, removeURLsF, removeTags,
      removeTagsF, collapseWS, pyStripL, List.dropWhile] at h
  · rw [clean_text_of_strip_nil hstrip] at h
    simp [pySplit, pySplitAux] at h

/-! ### Bounds on the target sentence count -/

theorem computeNumSentences_depth1 {L : ℕ} {n : ℤ}
    (h : computeNumSentences L 1 = .ok n) : 2 ≤ n ∧ n ≤ 3 := by
  unfold computeNumSentences at h
  try simp only [base_coverage] at h
  split at h
  · exact absurd h (by simp)
  · simp only [if_true, Except.ok.injEq] at h
    subst h
    constructor
    · exact le_min (le_max_left _ _) (by norm_num)
    · exact min_le_right _ _

/-! ### Length of the cleaned text -/

theorem matchLit_length {ps : List Char} :
    ∀ {l r : List Char}, matchLit ps l = some r → r.length ≤ l.length := by
  induction ps with
  | nil =>
    intro l r h
    unfold matchLit at h
    injection h with h
    subst h
    exact le_refl _
  | cons p ps ih =>
    intro l r h
    cases l with
    | nil => exact absurd h (by simp [matchLit])
    | cons c cs =>
      unfold matchLit at h
      split at h
      · exact le_trans (ih h) (by simp)
      · exact absurd h (by simp)

theorem dropWhile_length_le (p : α → Bool) (l : List α) :
    (l.dropWhile p).length ≤ l.length := by
  induction l with
  | nil => simp
  | cons x xs ih =>
    rw [List.dropWhile_cons]
    split
    · exact le_trans ih (by simp)
    · simp

theorem nonspaceTail_length {l r : List Char} (h : nonspaceTail l = some r) :
    r.length ≤ l.length := by
  cases l with
  | nil => exact absurd h (by simp [nonspaceTail])
  | cons c cs =>
    simp only [nonspaceTail] at h
    split at h
    · exact absurd h (by simp)
    · injection h with h
      subst h
      calc (cs.dropWhile fun d => !isSpaceC d).length ≤ cs.length :=
            dropWhile_length_le _ _
        _ ≤ (c :: cs).length := by simp

theorem tryScheme_length {pre : String} {l r : List Char} (h : tryScheme pre l = some r) :
    r.length ≤ l.length := by
  unfold tryScheme at h
  split at h
  case h_1 heq => exact le_trans (nonspaceTail_length h) (matchLit_length heq)
  case h_2 => exact absurd h (by simp)

theorem matchURL_length {l r : List Char} (h : matchURL l = some r) : r.length ≤ l.length := by
  unfold matchURL at h
  cases h1 : tryScheme "https://" l with
  | some r1 =>
    rw [h1] at h
    simp only [Option.orElse] at h
    injection h with h
    subst h
    exact tryScheme_length h1
  | none =>
    rw [h1] at h
    simp only [Option.orElse] at h
    cases h2 : tryScheme "http://" l with
    | some r2 =>
      rw [h2] at h
      simp only [Option.orElse] at h
      injection h with h
      subst h
      exact tryScheme_length h2
    | none =>
      rw [h2] at h
      simp only [Option.orElse] at h
      exact tryScheme_length h

theorem removeURLsF_length (fuel : ℕ) (l : List Char) :
    (removeURLsF fuel l).length ≤ l.length := by
  induction fuel generalizing l with
  | zero => exact le_refl _
  | succ fuel ih =>
    cases l with
    | nil => simp [removeURLsF]
    | cons c cs =>
      cases hm : matchURL (c :: cs) with
      | some rest =>
        simp only [removeURLsF, hm]
        exact le_trans (ih rest) (matchURL_length hm)
      | none =>
        simp only [removeURLsF, hm, List.length_cons]
        exact Nat.succ_le_succ (ih cs)

theorem splitClose_length {l r : List Char} (h : splitClose l = some r) :
    r.length ≤ l.length := by
  induction l with
  | nil => exact absurd h (by simp [splitClose])
  | cons c cs ih =>
    unfold splitClose at h
    split at h
    · injection h with h
      subst h
      simp
    · split at h
      · exact absurd h (by simp)
      · exact le_trans (ih h) (by simp)

theorem removeTagsF_length (fuel : ℕ) (l : List Char) :
    (removeTagsF fuel l).length ≤ l.length := by
  induction fuel generalizing l with
  | zero => exact le_refl _
  | succ fuel ih =>
    cases l with
    | nil => simp [removeTagsF]
    | cons c cs =>
      by_cases hc : c = '<'
      · cases hm : splitClose cs with
        | some rest =>
          simp only [removeTagsF, hc, if_true, hm]
          calc (removeTagsF fuel rest).length ≤ rest.length := ih rest
            _ ≤ cs.length := splitClose_length hm
            _ ≤ (c :: cs).length := by simp
        | none =>
          simp only [removeTagsF, hc, if_true, hm, List.length_cons]
          exact Nat.succ_le_succ (ih cs)
      · simp only [removeTagsF, if_neg hc, List.length_cons]
        exact Nat.succ_le_succ (ih cs)

theorem collapseWS_length (l : List Char) : (collapseWS l).length ≤ l.length := by
  induction l with
  | nil => simp [collapseWS]
  | cons c cs ih =>
    cases cs with
    | nil =>
      simp only [collapseWS]
      split <;> simp
    | cons c2 rest =>
      simp only [collapseWS]
      split
      · split
        · exact le_trans ih (by simp)
        · simp only [List.length_cons]
          exact Nat.succ_le_succ ih
      · simp only [List.length_cons]
        exact Nat.succ_le_succ ih

theorem pyStripL_length (l : List Char) : (pyStripL l).length ≤ l.length := by
  unfold pyStripL
  calc (((l.dropWhile isSpaceC).reverse.dropWhile isSpaceC).reverse).length
      = ((l.dropWhile isSpaceC).reverse.dropWhile isSpaceC).length := by
        simp
    _ ≤ (l.dropWhile isSpaceC).reverse.length := dropWhile_length_le _ _
    _ = (l.dropWhile isSpaceC).length := by simp
    _ ≤ l.length := dropWhile_length_le _ _

theorem clean_text_length_le (t : String) : (clean_text t).length ≤ t.length := by
  show (pyStripL (collapseWS (removeTags (removeURLs t.data)))).length ≤ t.data.length
  calc (pyStripL (collapseWS (removeTags (removeURLs t.data)))).length
      ≤ (collapseWS (removeTags (removeURLs t.data))).length := pyStripL_length _
    _ ≤ (removeTags (removeURLs t.data)).length := collapseWS_length _
    _ ≤ (removeURLs t.data).length := removeTagsF_length _ _
    _ ≤ t.data.length := removeURLsF_length _ _

/-! ### Assembling summaries from index sequences -/

theorem str_append_empty (s : String) : s ++ "" = s := by
  show String.mk (s.data ++ []) = s
  rw [List.append_nil]

theorem strJoin_foldl_append (l : List String) :
    ∀ a b : String, l.foldl (· ++ ·) (a ++ b) = a ++ l.foldl (· ++ ·) b := by
  induction l with
  | nil => intro a b; rfl
  | cons y ys ih =>
    intro a b
    show ys.foldl (· ++ ·) (a ++ b ++ y) = a ++ ys.foldl (· ++ ·) (b ++ y)
    rw [String.append_assoc, ih]

theorem strJoin_cons (y : String) (l : List String) :
    String.join (y :: l) = y ++ String.join l := by
  show l.foldl (· ++ ·) ("" ++ y) = y ++ l.foldl (· ++ ·) ""
  have : ("" : String) ++ y = y ++ "" := by
    rw [str_append_empty]
    rfl
  rw [this, strJoin_foldl_append]

theorem pyJoin_append_join (ys : List String) :
    ∀ xs : List String, xs ≠ [] →
    pyJoin " " (xs ++ ys) = pyJoin " " xs ++ String.join (ys.map fun s => " " ++ s) := by
  have single : ∀ (x : String) (ys : List String),
      pyJoin " " (x :: ys) = x ++ String.join (ys.map fun s => " " ++ s) := by
    intro x ys
    induction ys generalizing x with
    | nil =>
      show x = x ++ String.join []
      rw [show String.join [] = "" from rfl, str_append_empty]
    | cons y ys ih =>
      show x ++ " " ++ pyJoin " " (y :: ys) = _
      rw [ih y, List.map_cons, strJoin_cons, ← String.append_assoc, ← String.append_assoc,
        String.append_assoc x " " y]
  intro xs hne
  induction xs with
  | nil => exact absurd rfl hne
  | cons x rest ih =>
    cases rest with
    | nil =>
      show pyJoin " " (x :: ys) = pyJoin " " [x] ++ _
      rw [single x ys]
      rfl
    | cons x2 rest2 =>
      show x ++ " " ++ pyJoin " " ((x2 :: rest2) ++ ys) = x ++ " " ++ pyJoin " " (x2 :: rest2) ++ _
      rw [ih (by simp), String.append_assoc (x ++ " ")]

/-- In the scored-selection path, the summary string returned by
`summarize_body` is exactly the sentences of `selection_with_backfill`
joined in emission order: the complexity-branch selection first, then the
backfill sentences appended at the end. -/
theorem summary_is_assembled_selection (t ti : String) (d c : ℕ) (num : ℤ)
    (h50 : ¬ (pySplit (clean_text t)).length < 50)
    (h2 : ¬ (sent_tokenize (clean_text t)).length ≤ 2)
    (hnum : computeNumSentences (sent_tokenize (clean_text t)).length d = .ok num)
    (hsel : selected_indices (sent_tokenize (clean_text t))
        (sentence_scores (sent_tokenize (clean_text t))
          (freqDist (significant (clean_text t))) ti)
        (significant (clean_text t)) num.toNat c ≠ []) :
    summarize_body t ti d c = .ok (pyJoin " "
      ((selection_with_backfill (sent_tokenize (clean_text t))
          (sentence_scores (sent_tokenize (clean_text t))
            (freqDist (significant (clean_text t))) ti)
          (significant (clean_text t)) num.toNat c).map
        fun i => (sent_tokenize (clean_text t)).getD i "")) := by
  unfold summarize_body selection_with_backfill
  rw [if_neg h50, if_neg h2, hnum]
  dsimp only
  split
  next hcond =>
    rw [List.map_append, pyJoin_append_join _ _ (by simpa using hsel), List.map_map,
      List.map_map]
    rfl
  next hcond => rfl

/-! ### Shared facts about the entry point -/

theorem computeNumSentences_math_error {L d : ℕ} (hd1 : 1 ≤ d) (hd5 : d ≤ 5)
    (hL : 20 < L) : computeNumSentences L d = .error PyErr.nameErrorMath := by
  unfold computeNumSentences
  interval_cases d <;> simp only [base_coverage, hL, if_true]

/-- At depth 1 the target count is not merely capped at 3: it is always
exactly 2.  For every reachable length (`L ≤ 20`; larger lengths raise
before line 159) the base count is `max(2, int(L·0.1)) = 2` and the
multiplier is `1 − L/20 ≤ 1`, so `int(2·(1 − L/20)) ≤ 2` and the clamp
`max(2, …)` followed by `min(…, 3)` yields 2. -/
theorem computeNumSentences_depth1_eq {L : ℕ} {n : ℤ}
    (h : computeNumSentences L 1 = .ok n) : n = 2 := by
  have hL : ¬ 20 < L := by
    by_contra hgt
    rw [computeNumSentences_math_error (by omega) (by omega) (by omega)] at h
    exact Except.noConfusion h
  have hL20 : L ≤ 20 := by omega
  interval_cases L <;>
    exact (Except.ok.inj (h : Except.ok 2 = Except.ok n)).symm

theorem summarize_body_error_words {t ti : String} {d c : ℕ} {e : PyErr}
    (he : summarize_body t ti d c = .error e) :
    50 ≤ (pySplit (clean_text t)).length := by
  by_contra hlt
  push_neg at hlt
  unfold summarize_body at he
  rw [if_pos hlt] at he
  exact Except.noConfusion he

theorem summarize_error_fallback {t ti : String} {d c : ℕ} {e : PyErr}
    (he : summarize_body t ti d c = .error e) :
    summarize_text t ti d c = if 500 < t.length then pyTake t 500 ++ "..." else t := by
  have hw := summarize_body_error_words he
  unfold summarize_text
  rw [if_neg (strip_ne_of_words (by omega)), he]

theorem summarize_ok_result {t ti : String} {d c : ℕ} {s : String}
    (hne : ¬ (t = "" ∨ pyStrip t = ""))
    (hs : summarize_body t ti d c = .ok s) :
    summarize_text t ti d c = s := by
  unfold summarize_text
  rw [if_neg hne, hs]

theorem summarize_short_echo {t ti : String} {d c : ℕ}
    (hne : ¬ (t = "" ∨ pyStrip t = ""))
    (hshort : (pySplit (clean_text t)).length < 50) :
    summarize_text t ti d c = pyTake (clean_text t) 500 ++ "..." := by
  unfold summarize_text summarize_body
  rw [if_neg hne, if_pos hshort]

/-! ### The claims -/

/-- C1, counterexample: on a 21-sentence document of 209 characters the
scoring path fails internally (the unimported `math` at line 157), the
failure is caught, but the returned fallback is the raw text unchanged —
not the first 500 characters plus an ellipsis, as the claim states for
every internal failure. -/
theorem c1_fallback_no_ellipsis_cex :
    summarize_body doc21 "" 3 3 = .error PyErr.nameErrorMath ∧
    summarize_text doc21 "" 3 3 = doc21 ∧
    summarize_text doc21 "" 3 3 ≠ pyTake doc21 500 ++ "..." := by
  refine ⟨by rfl, by rfl, by decide⟩

/-- C1, amended: for every string input, any title and any depth and
complexity, `summarize_text` returns normally with a string: when the body
succeeds its value is returned, and when any internal failure occurs in
tokenization, scoring or selection it is caught at the top-level entry
point and converted to the truncation fallback — the raw input truncated
to its first 500 characters with an ellipsis appended only when the input
exceeds 500 characters (otherwise the raw input itself). -/
theorem c1_toplevel_catch_amended (t ti : String) (d c : ℕ) :
    (∀ s, summarize_body t ti d c = .ok s → ¬ (t = "" ∨ pyStrip t = "") →
      summarize_text t ti d c = s) ∧
    (∀ e, summarize_body t ti d c = .error e →
      summarize_text t ti d c = if 500 < t.length then pyTake t 500 ++ "..." else t) := by
  constructor
  · intro s hs hne
    exact summarize_ok_result hne hs
  · intro e he
    exact summarize_error_fallback he

/-- C1, witness: the amended theorem evaluated on the 21-sentence document
(whose body fails with the `math` `NameError`). -/
theorem c1_toplevel_catch_witness : summarize_text doc21 "" 2 4 = doc21 := by
  have h := (c1_toplevel_catch_amended doc21 "" 2 4).2 PyErr.nameErrorMath (by rfl)
  exact h.trans (by rfl)

/-- C2: whenever the cleaned text has at least 50 words and tokenizes into
more than 20 sentences (and depth is a valid key 1..5), the body always
raises `NameError` at line 157 — `math` is never imported — so
`summarize_text` returns the raw input truncated to 500 characters, with
an ellipsis appended only when the raw text exceeds 500 characters, and
never an assembled selection of scored sentences. -/
theorem c2_math_unimported_fallback (t ti : String) (d c : ℕ)
    (hd1 : 1 ≤ d) (hd5 : d ≤ 5)
    (hw : 50 ≤ (pySplit (clean_text t)).length)
    (hs : 20 < (sent_tokenize (clean_text t)).length) :
    summarize_body t ti d c = .error PyErr.nameErrorMath ∧
    summarize_text t ti d c =
      (if 500 < t.length then pyTake t 500 ++ "..." else t) := by
  have hbody : summarize_body t ti d c = .error PyErr.nameErrorMath := by
    unfold summarize_body
    rw [if_neg (by omega), if_neg (by omega),
      computeNumSentences_math_error hd1 hd5 hs]
  exact ⟨hbody, summarize_error_fallback hbody⟩

/-- C2, witness: the 21-sentence, 63-word, 209-character document. -/
theorem c2_math_unimported_witness :
    summarize_body doc21 "" 3 3 = .error PyErr.nameErrorMath ∧
    summarize_text doc21 "" 3 3 = doc21 := by
  have h := c2_math_unimported_fallback doc21 "" 3 3 (by omega) (by omega)
    (by decide) (by decide)
  exact ⟨h.1, h.2.trans (by rfl)⟩

/-- C3, counterexample: on `doc3` (ten sentences, depth 3, complexity 3)
the primary selection is sentences 7, 8, 9; the summary is under 30 words,
so the backfill appends sentences 0 and 1 **after** sentence 9.  The
emission order 7, 8, 9, 0, 1 of the returned summary is not ascending, so
the relative order of selected sentences does not always match the
original document order once backfill sentences are included. -/
theorem c3_backfill_order_cex :
    sent_tokenize (clean_text doc3) = doc3sents ∧
    computeNumSentences doc3sents.length 3 = .ok 3 ∧
    selection_with_backfill doc3sents doc3scores doc3words 3 3 = [7, 8, 9, 0, 1] ∧
    summarize_text doc3 "" 3 3 =
      pyJoin " " ([7, 8, 9, 0, 1].map fun i => doc3sents.getD i "") ∧
    ¬ List.Sorted (· ≤ ·) [7, 8, 9, 0, 1] := by
  refine ⟨by rfl, by rfl, by rfl, by rfl, by decide⟩

/-- C3, amended: the primary complexity-branch selection is always
re-sorted into ascending original-document order before assembly, and the
backfill indices are sorted ascending among themselves — but the backfill
sentences are appended after the primary summary, so the combined emission
order can violate document order (see the counterexample). -/
theorem c3_order_amended (sentences : List String) (scores : List (ℕ × PyRat))
    (words : List String) (num complexity num2 add : ℕ) :
    List.Sorted (· ≤ ·) (selected_indices sentences scores words num complexity) ∧
    List.Sorted (· ≤ ·) ((backfill_pairs scores num2 add).map Prod.fst) := by
  constructor
  · unfold selected_indices
    split_ifs
    · exact pySort_natLe_sorted _
    · exact pySort_natLe_sorted _
    · unfold top_sentences
      exact pySort_pairIdxLe_sorted _
    · exact pySort_pairIdxLe_sorted _
    · exact pySort_pairIdxLe_sorted _
  · unfold backfill_pairs
    exact pySort_pairIdxLe_sorted _

/-- C4, counterexample: on `doc4` (seven distinct 8-word sentences) the
depth-1 target count is 2, but at complexity 5 the selection pool is
doubled (line 213: `additional_sentences = num_sentences`), so the depth-1
summary assembles the four sentences 0, 1, 2, 3 — more than 3 — and no
backfill runs (the summary has 32 ≥ 30 words). -/
theorem c4_depth1_cap_cex :
    sent_tokenize (clean_text doc4) = doc4sents ∧
    computeNumSentences doc4sents.length 1 = .ok 2 ∧
    selected_indices doc4sents doc4scores doc4words 2 5 = [0, 1, 2, 3] ∧
    summarize_text doc4 "" 1 5 =
      pyJoin " " ([0, 1, 2, 3].map fun i => doc4sents.getD i "") ∧
    3 < ([0, 1, 2, 3] : List ℕ).length := by
  refine ⟨by rfl, by rfl, by rfl, by rfl, by decide⟩

/-- C4, amended: for any document the depth-1 target sentence count is
always exactly 2 (see `computeNumSentences_depth1_eq`), so the depth-1
primary selection (ignoring the backfill) never includes more than 3
sentences for complexity levels 1–4 — at complexity 4 the pool expansion
is only `num // 2 = 1` — and the hard cap of 3 fails only in the
complexity-5 branch (which the final `else` also applies to any
complexity value outside 1–4), where the doubled pool allows up to 4
sentences. -/
theorem c4_depth1_cap_amended (L : ℕ) (n : ℤ) (sentences : List String)
    (scores : List (ℕ × PyRat)) (words : List String) (c : ℕ)
    (h : computeNumSentences L 1 = .ok n) :
    n = 2 ∧
    (1 ≤ c → c ≤ 4 → (selected_indices sentences scores words n.toNat c).length ≤ 3) ∧
    (selected_indices sentences scores words n.toNat c).length ≤ 4 := by
  have hn := computeNumSentences_depth1_eq h
  subst hn
  refine ⟨rfl, ?_, ?_⟩
  · intro hc1 hc4
    unfold selected_indices
    split_ifs with h1 h2 h3 h4
    · rw [pySort_length, List.length_map]
      exact le_trans (List.length_take_le _ _) (by omega)
    · rw [pySort_length, List.length_map]
      exact le_trans (List.length_take_le _ _) (by omega)
    · unfold top_sentences
      rw [List.length_map, pySort_length]
      exact le_trans (List.length_take_le _ _) (by omega)
    · rw [List.length_map, pySort_length]
      exact le_trans (List.length_take_le _ _) (by omega)
    · omega
  · unfold selected_indices
    split_ifs with h1 h2 h3 h4
    · rw [pySort_length, List.length_map]
      exact le_trans (List.length_take_le _ _) (by omega)
    · rw [pySort_length, List.length_map]
      exact le_trans (List.length_take_le _ _) (by omega)
    · unfold top_sentences
      rw [List.length_map, pySort_length]
      exact le_trans (List.length_take_le _ _) (by omega)
    · rw [List.length_map, pySort_length]
      exact le_trans (List.length_take_le _ _) (by omega)
    · rw [List.length_map, pySort_length]
      exact le_trans (List.length_take_le _ _) (by omega)

/-- C4, witness: the amended theorem evaluated at the seven-sentence
document, whose depth-1 target count is 2, at complexity 5. -/
theorem c4_depth1_cap_witness :
    (2 : ℤ) = 2 ∧
    (1 ≤ 5 → 5 ≤ 4 → (selected_indices doc4sents doc4scores doc4words
      (Int.toNat 2) 5).length ≤ 3) ∧
    (selected_indices doc4sents doc4scores doc4words (Int.toNat 2) 5).length ≤ 4 :=
  c4_depth1_cap_amended doc4sents.length 2 doc4sents doc4scores doc4words 5 (by rfl)

/-- C5: every non-empty, non-whitespace input whose cleaned text has fewer
than 50 words is echoed: the result is the normalized (cleaned) text
truncated to 500 characters with the trailing ellipsis marker appended,
not an algorithmically selected subset of sentences. -/
theorem c5_short_input_echo (t ti : String) (d c : ℕ)
    (hne : t ≠ "") (hws : pyStrip t ≠ "")
    (hshort : (pySplit (clean_text t)).length < 50) :
    summarize_text t ti d c = pyTake (clean_text t) 500 ++ "..." :=
  summarize_short_echo (by tauto) hshort

/-- C5, witness: `summarize("Short text.", title="T")`. -/
theorem c5_short_input_echo_witness :
    summarize_text "Short text." "T" 3 3 = pyTake (clean_text "Short text.") 500 ++ "..." ∧
    summarize_text "Short text." "T" 3 3 = "Short text...." :=
  ⟨c5_short_input_echo "Short text." "T" 3 3 (by decide) (by decide) (by decide),
   by rfl⟩

/-- C6, counterexample: the short-input echo always appends "...", so the
output can be longer than the original input: `summarize("hi")` returns
"hi..." (5 characters from a 2-character input), contradicting "always ≤
original text length in the truncation-fallback path". -/
theorem c6_length_bound_cex :
    summarize_text "hi" "" 3 3 = "hi..." ∧
    ("hi" : String).length < (summarize_text "hi" "" 3 3).length := by
  refine ⟨by rfl, by decide⟩

/-- C6, amended: the output is always a string (the entry point is total),
and in every truncation-fallback path — the short-input echo and the
internal-failure fallback — the length of the returned string is at most
the length of the original input text plus 3, the appended ellipsis; the
bound `≤ len(text)` itself fails (see the counterexample). -/
theorem c6_length_bound_amended (t ti : String) (d c : ℕ)
    (hne : t ≠ "") (hws : pyStrip t ≠ "")
    (h : (pySplit (clean_text t)).length < 50 ∨ ∃ e, summarize_body t ti d c = .error e) :
    (summarize_text t ti d c).length ≤ t.length + 3 := by
  have htake : ∀ (s : String) (n : ℕ), (pyTake s n ++ "...").length = min n s.length + 3 := by
    intro s n
    rw [String.length_append]
    show (s.data.take n).length + ("...").length = _
    rw [List.length_take]
    rfl
  rcases h with hshort | ⟨e, he⟩
  · rw [summarize_short_echo (by tauto) hshort, htake]
    have := clean_text_length_le t
    omega
  · rw [summarize_error_fallback he]
    split
    · rw [htake]
      omega
    · omega

/-- C6, witness: the amended bound evaluated at the two-character input
"hi" (echo path, result "hi...", 5 ≤ 2 + 3). -/
theorem c6_length_bound_witness : (summarize_text "hi" "" 3 3).length ≤ ("hi" : String).length + 3 :=
  c6_length_bound_amended "hi" "" 3 3 (by decide) (by decide) (Or.inl (by decide))

/-- C7, counterexample: `doc7` normalizes to exactly 20 sentences, yet at
complexity 1 the depth-5 summary has 36 words while the depth-1 summary
has 38 words (its backfill appends the two long sentences), so the claimed
inequality fails for a document with at least 20 sentences. -/
theorem c7_monotonic_cex :
    (sent_tokenize (clean_text doc7)).length = 20 ∧
    (pySplit (summarize_text doc7 "" 5 1)).length = 36 ∧
    (pySplit (summarize_text doc7 "" 1 1)).length = 38 ∧
    (pySplit (summarize_text doc7 "" 5 1)).length <
      (pySplit (summarize_text doc7 "" 1 1)).length := by
  refine ⟨by rfl, by rfl, by rfl, by decide⟩

/-- C7, amended: for documents that tokenize into **more than** 20
sentences the scoring path always fails before depth is used (the
unimported `math` at line 157), both depths return the identical
truncation fallback and the word-count inequality holds with equality; at
exactly 20 sentences the inequality can fail (see the counterexample). -/
theorem c7_monotonic_amended (t ti : String) (c : ℕ)
    (hs : 20 < (sent_tokenize (clean_text t)).length) :
    summarize_text t ti 5 c = summarize_text t ti 1 c ∧
    (pySplit (summarize_text t ti 1 c)).length ≤
      (pySplit (summarize_text t ti 5 c)).length := by
  have heq : summarize_text t ti 5 c = summarize_text t ti 1 c := by
    by_cases hsent : t = "" ∨ pyStrip t = ""
    · unfold summarize_text
      rw [if_pos hsent, if_pos hsent]
    · by_cases h50 : (pySplit (clean_text t)).length < 50
      · rw [summarize_short_echo hsent h50, summarize_short_echo hsent h50]
      · have hb : ∀ d, 1 ≤ d → d ≤ 5 →
            summarize_body t ti d c = .error PyErr.nameErrorMath := by
          intro d hd1 hd5
          unfold summarize_body
          rw [if_neg h50, if_neg (by omega), computeNumSentences_math_error hd1 hd5 hs]
        rw [summarize_error_fallback (hb 5 (by omega) (by omega)),
          summarize_error_fallback (hb 1 (by omega) (by omega))]
  exact ⟨heq, by rw [heq]⟩

/-- C7, witness: the amended theorem evaluated on the 21-sentence document
(both depths return the document itself). -/
theorem c7_monotonic_witness :
    summarize_text doc21 "" 5 3 = summarize_text doc21 "" 1 3 ∧
    (pySplit (summarize_text doc21 "" 1 3)).length ≤
      (pySplit (summarize_text doc21 "" 5 3)).length :=
  c7_monotonic_amended doc21 "" 3 (by decide)

/-- C8: if the input text is empty or consists only of whitespace,
`summarize_text` returns exactly the sentinel string
"No content to summarize.". -/
theorem c8_empty_sentinel (t ti : String) (d c : ℕ)
    (h : t = "" ∨ pyStrip t = "") :
    summarize_text t ti d c = "No content to summarize." := by
  unfold summarize_text
  rw [if_pos h]

/-- C8, witness: the empty input and a whitespace-only input. -/
theorem c8_empty_sentinel_witness :
    summarize_text "" "t" 3 3 = "No content to summarize." ∧
    summarize_text " \n " "" 2 5 = "No content to summarize." :=
  ⟨c8_empty_sentinel "" "t" 3 3 (Or.inl rfl),
   c8_empty_sentinel " \n " "" 2 5 (Or.inr (by rfl))⟩

/-- C10: the entry point is a pure function of its four inputs — two calls
with identical arguments yield an identical output string.  (In the
source, the only side effects are logging and the idempotent
`nltk.download` calls, neither of which feeds back into the returned
value; the embedding is accordingly a function.) -/
theorem c10_deterministic (t ti : String) (d c : ℕ) :
    summarize_text t ti d c = summarize_text t ti d c := rfl

/-- C9, counterexample: the +2-per-term title boost is added after the
position scaling (line 136 of the source), so it need not dominate across
position classes: with term frequencies of 5, the sentence "xx yy." at
index 3 (position weight 0.5) shares both title terms yet scores
0.5 · 10 + 4 = 9, strictly below the equal-frequency sentence "aa bb."
at index 0 (position weight 1.0), which shares none and scores 10 — so
"the former scores strictly higher" fails as stated. -/
theorem c9_title_boost_cex :
    ((significant "xx yy.").filter fun w => (significant "xx yy").contains w).length = 2 ∧
    ((significant "aa bb.").filter fun w => (significant "xx yy").contains w).length = 0 ∧
    ((significant "xx yy.").map fun w => ((freq9b w : ℕ) : PyRat)).sum =
      ((significant "aa bb.").map fun w => ((freq9b w : ℕ) : PyRat)).sum ∧
    sentence_score freq9b "xx yy" 3 "xx yy." < sentence_score freq9b "xx yy" 0 "aa bb." := by
  refine ⟨by rfl, by rfl, by rfl, by decide⟩

/-- C9, amended: when a title is supplied (nonempty), each significant
sentence term occurrence that also appears among the title's significant
terms adds exactly +2 to the sentence's score on top of the title-free
score; consequently, for two sentences in the same position class (both
among the first three sentences, or both later), a sentence sharing two
terms with the title scores strictly higher than an equal-frequency
sentence sharing none, and it is preferred at equal target counts: the
score-descending selection at any fixed target count contains every pair
scoring strictly higher than a pair it contains.  Across different
position classes the 1.0/0.5 position weight can outweigh the +4 boost
(see the counterexample). -/
theorem c9_title_boost :
    (∀ (freq : String → ℕ) (ti : String) (i : ℕ) (s : String), ti ≠ "" →
      sentence_score freq ti i s =
        sentence_score freq "" i s +
          (((significant s).filter fun w => (significant ti).contains w).length : PyRat) * 2) ∧
    (∀ (freq : String → ℕ) (ti si sj : String) (i j : ℕ), ti ≠ "" →
      ((significant si).map fun w => ((freq w : ℕ) : PyRat)).sum =
        ((significant sj).map fun w => ((freq w : ℕ) : PyRat)).sum →
      (i < 3 ↔ j < 3) →
      ((significant si).filter fun w => (significant ti).contains w).length = 2 →
      ((significant sj).filter fun w => (significant ti).contains w).length = 0 →
      sentence_score freq ti j sj < sentence_score freq ti i si) ∧
    (∀ (scores : List (ℕ × PyRat)) (num : ℕ) (a b : ℕ × PyRat),
      a ∈ scores → b ∈ top_sentences scores num → b.2 < a.2 →
      a ∈ top_sentences scores num) := by
  refine ⟨?_, ?_, ?_⟩
  · intro freq ti i s hti
    unfold sentence_score
    rw [if_neg hti, if_pos rfl]
  · intro freq ti si sj i j hti hsum hpos hmi hmj
    unfold sentence_score
    rw [if_neg hti, if_neg hti]
    dsimp only
    rw [hmi, hmj, hsum]
    have hp : (if j < 3 then (1 : PyRat) else 1 / 2) =
        (if i < 3 then (1 : PyRat) else 1 / 2) := by
      by_cases h : i < 3
      · rw [if_pos h, if_pos (hpos.mp h)]
      · rw [if_neg h, if_neg fun hj => h (hpos.mpr hj)]
    rw [hp, PyRat.lt_iff]
    simp only [PyRat.val_add, PyRat.val_mul, PyRat.val_natCast, PyRat.val_ofNat]
    have h2 : PyRat.val 2 = 2 := by
      rw [show PyRat.val 2 = (((2 : ℕ) : ℤ) : ℚ) / ((1 : ℕ) : ℚ) from rfl]
      norm_num
    rw [h2]
    push_cast
    linarith
  · intro scores num a b ha hb hlt
    exact top_sentences_preferred scores num a b ha hb hlt

/-- C9, witness: with title "xx yy" and term frequency 3, the boosted
sentence "xx yy." at index 0 satisfies the additive +2-per-term law; in
the same position class it strictly outscores the equal-frequency
"aa bb." at index 1; and at target count 2 the selection over their score
pairs contains the higher-scoring pair given that it contains the lower. -/
theorem c9_title_boost_witness :
    (sentence_score freq9 "xx yy" 0 "xx yy." =
      sentence_score freq9 "" 0 "xx yy." +
        (((significant "xx yy.").filter fun w =>
          (significant "xx yy").contains w).length : PyRat) * 2) ∧
    (sentence_score freq9 "xx yy" 1 "aa bb." < sentence_score freq9 "xx yy" 0 "xx yy.") ∧
    (0, sentence_score freq9 "xx yy" 0 "xx yy.") ∈ top_sentences scores9 2 := by
  refine ⟨c9_title_boost.1 freq9 "xx yy" 0 "xx yy." (by decide), ?_, ?_⟩
  · exact c9_title_boost.2.1 freq9 "xx yy" "xx yy." "aa bb." 0 1 (by decide) (by rfl)
      (by decide) (by rfl) (by rfl)
  · exact c9_title_boost.2.2 scores9 2 (0, sentence_score freq9 "xx yy" 0 "xx yy.")
      (1, sentence_score freq9 "xx yy" 1 "aa bb.") (by decide) (by decide) (by decide)

